import Mathlib

/-!
A verification development for the particle-network animation component
(src/network-animation.vue).  JS numbers are modelled as exact rationals;
the Euclidean distance, which the source computes with Math.sqrt, lives in
the reals.  Calls to Math.random are modelled by passing the raw draws
explicitly.  Object identity of particles, which the source relies on via
Array.prototype.indexOf, is modelled by tagging every store entry with a
fresh numeric id.
-/

namespace NetworkAnimation

/-- The configuration object (the module-level constant named options). -/
structure Options where
  velocity : ℚ
  density : ℚ
  netLineDistance : ℚ
  netLineColor : String
  particleColors : List String
deriving DecidableEq

/-- The configured values of the source: velocity 0.5, density 15000,
netLineDistance 200, palette of one color. -/
def options : Options :=
  { velocity := 1/2, density := 15000, netLineDistance := 200,
    netLineColor := "#929292", particleColors := ["#aaa"] }

/-- The velocity record of a particle. -/
structure Velocity where
  x : ℚ
  y : ℚ
deriving DecidableEq

/-- The Particle record of the source.  particleColor is optional because
indexing past the end of the palette yields undefined in JS. -/
structure Particle where
  opacity : ℚ
  x : ℚ
  y : ℚ
  radius : ℚ
  particleColor : Option String
  velocity : Velocity
deriving DecidableEq

/-- Semantics of the JS expression a || b when a is an optional number:
undefined and 0 are falsy and select b; any other number is returned. -/
def jsOr (a : Option ℚ) (b : ℚ) : ℚ :=
  match a with
  | none => b
  | some v => if v = 0 then b else v

/-- Semantics of Math.round: round half toward positive infinity. -/
def jsRound (q : ℚ) : ℚ := ((⌊q + 1/2⌋ : ℤ) : ℚ)

/-- Semantics of JS array indexing arr[i]: undefined when out of range. -/
def jsIndex (l : List String) (i : ℤ) : Option String :=
  if i < 0 then none else l.get? i.toNat

/-- One bundle of the Math.random draws consumed by a createParticle call,
each a value in [0, 1). -/
structure Rnd where
  rPosX : ℚ
  rPosY : ℚ
  rRadius : ℚ
  rColor : ℚ
  rVelX : ℚ
  rVelY : ℚ
deriving DecidableEq

/-- generateRandomPosition from the source, with the two Math.random draws
explicit: (random * canvas.width, random * canvas.height). -/
def generateRandomPosition (w h r1 r2 : ℚ) : ℚ × ℚ := (r1 * w, r2 * h)

/-- getLimitedRandom from the source, with the Math.random draw explicit. -/
def getLimitedRandom (mn mx r : ℚ) (roundToInteger : Bool) : ℚ :=
  let n := r * (mx - mn) + mn
  if roundToInteger then jsRound n else n

/-- createParticle from the source.  The surface size, palette, velocity
option and random draws are explicit parameters; the optional overwrite
coordinates combine with the random position through the JS || operator. -/
def createParticle (w h : ℚ) (palette : List String) (vel : ℚ) (r : Rnd)
    (overwriteX overwriteY : Option ℚ) : Particle :=
  let pos := generateRandomPosition w h r.rPosX r.rPosY
  { x := jsOr overwriteX pos.1
    y := jsOr overwriteY pos.2
    opacity := 0
    radius := getLimitedRandom (3/2) (5/2) r.rRadius true
    particleColor := jsIndex palette ⌊r.rColor * (palette.length : ℚ)⌋
    velocity := { x := (r.rVelX - 1/2) * vel, y := (r.rVelY - 1/2) * vel } }

/-- updateParticle from the source: advance the fade-in opacity, reverse a
velocity component when the position lies outside the extended bounds
[-100, extent + 100], then integrate the (possibly reversed) velocity. -/
def updateParticle (w h : ℚ) (p : Particle) : Particle :=
  { opacity := if p.opacity < 1 then p.opacity + 1/100 else 1
    x := p.x + (if p.x > w + 100 ∨ p.x < -100 then -p.velocity.x else p.velocity.x)
    y := p.y + (if p.y > h + 100 ∨ p.y < -100 then -p.velocity.y else p.velocity.y)
    radius := p.radius
    particleColor := p.particleColor
    velocity :=
      { x := if p.x > w + 100 ∨ p.x < -100 then -p.velocity.x else p.velocity.x
        y := if p.y > h + 100 ∨ p.y < -100 then -p.velocity.y else p.velocity.y } }

/-- A filled-disc draw call, as issued by drawParticle. -/
structure DiscCall where
  fillStyle : Option String
  alpha : ℚ
  x : ℚ
  y : ℚ
  radius : ℚ
deriving DecidableEq

/-- drawParticle from the source: unconditionally issues one disc draw call
at the particle position with the particle color and opacity. -/
def drawParticle (p : Particle) : List DiscCall :=
  [{ fillStyle := p.particleColor, alpha := p.opacity, x := p.x, y := p.y,
     radius := p.radius }]

/-- Exact Euclidean distance between two particles; the source computes
Math.sqrt(Math.pow(dx, 2) + Math.pow(dy, 2)). -/
noncomputable def dist (p1 p2 : Particle) : ℝ :=
  Real.sqrt (((p1.x - p2.x : ℚ) : ℝ) ^ 2 + ((p1.y - p2.y : ℚ) : ℝ) ^ 2)

/-- A connecting-line draw call of the proximity renderer. -/
structure LineCall where
  x1 : ℚ
  y1 : ℚ
  x2 : ℚ
  y2 : ℚ
  alpha : ℝ

/-- The globalAlpha the source assigns for a connecting line:
((netLineDistance - distance) / netLineDistance) * p1.opacity * p2.opacity. -/
noncomputable def lineAlpha (p1 p2 : Particle) : ℝ :=
  (((options.netLineDistance : ℝ) - dist p1 p2) / (options.netLineDistance : ℝ)) *
    (p1.opacity : ℝ) * (p2.opacity : ℝ)

/-- Body of the inner pair loop of updateParticleNetwork: the cheap
min(|dx|, |dy|) pre-filter, then the exact distance test, then the line
draw call with the attenuated alpha. -/
noncomputable def lineCallPre (p1 p2 : Particle) : Option LineCall :=
  if min |p1.x - p2.x| |p1.y - p2.y| > options.netLineDistance then none
  else if dist p1 p2 > (options.netLineDistance : ℝ) then none
  else some ⟨p1.x, p1.y, p2.x, p2.y, lineAlpha p1 p2⟩

/-- Reference body for the same pair loop that tests only the exact
Euclidean distance against the threshold. -/
noncomputable def lineCallRef (p1 p2 : Particle) : Option LineCall :=
  if dist p1 p2 > (options.netLineDistance : ℝ) then none
  else some ⟨p1.x, p1.y, p2.x, p2.y, lineAlpha p1 p2⟩

/-- Index pairs visited by the double loop of updateParticleNetwork:
i ascending over the store, j descending from length - 1 down to i + 1. -/
def pairsIdx (n : ℕ) : List (ℕ × ℕ) :=
  (List.range n).flatMap fun i =>
    (List.range (n - 1 - i)).map fun k => (i, n - 1 - k)

/-- Look a pair of store indices up and apply a pair renderer body. -/
def pairCall (f : Particle → Particle → Option LineCall) (ps : List Particle)
    (ij : ℕ × ℕ) : Option LineCall :=
  match ps.get? ij.1, ps.get? ij.2 with
  | some p1, some p2 => f p1 p2
  | _, _ => none

/-- The connecting-line draw calls issued per frame by the source renderer
(with the cheap pre-filter), in source iteration order. -/
noncomputable def drawLinesPre (ps : List Particle) : List LineCall :=
  (pairsIdx ps.length).filterMap (pairCall lineCallPre ps)

/-- The connecting-line draw calls of the reference renderer that tests
only the exact Euclidean distance. -/
noncomputable def drawLinesRef (ps : List Particle) : List LineCall :=
  (pairsIdx ps.length).filterMap (pairCall lineCallRef ps)

/-- One tick of the setInterval callback of createParticles(true): a
particle is created and appended while counter < quantity - 1, then the
timer self-cancels.  The fuel argument bounds the ticks modelled; the
guard is monotone in the counter so any sufficient fuel gives the same
count. -/
def throttledGo : ℕ → ℕ → ℚ → ℕ
  | 0, _, _ => 0
  | fuel + 1, counter, q =>
    if (counter : ℚ) < q - 1 then throttledGo fuel (counter + 1) q + 1 else 0

/-- Number of particles appended by the throttled initial spawn of
createParticles(true) for target quantity q. -/
def throttledCount (q : ℚ) : ℕ := throttledGo (⌈q⌉.toNat + 1) 0 q

/-- One step of the synchronous branch createParticles(false):
for (i = 0; i < quantity; i++) push(createParticle()). -/
def syncGo : ℕ → ℕ → ℚ → ℕ
  | 0, _, _ => 0
  | fuel + 1, i, q =>
    if (i : ℚ) < q then syncGo fuel (i + 1) q + 1 else 0

/-- Number of particles appended by the synchronous branch of
createParticles for target quantity q. -/
def syncCount (q : ℚ) : ℕ := syncGo (⌈q⌉.toNat + 1) 0 q

/-- The target quantity of createParticles:
canvas.width * canvas.height / options.density. -/
def quantity (w h : ℚ) : ℚ := w * h / options.density

/-- A store entry: a particle tagged with a creation id.  The id models JS
object identity, which indexOf uses. -/
structure IdParticle where
  pid : ℕ
  part : Particle
deriving DecidableEq

/-- The module-level mutable state: the particles array, the
interactionParticle reference (as an optional id) and the next fresh id. -/
structure PState where
  particles : List IdParticle
  interaction : Option ℕ
  nextId : ℕ
deriving DecidableEq

/-- The state before any event: empty store, no interaction particle. -/
def initState : PState := { particles := [], interaction := none, nextId := 0 }

/-- The ids of the store entries, in store order. -/
def ids (s : PState) : List ℕ := s.particles.map IdParticle.pid

/-- Number of store entries the interactionParticle reference points at. -/
def interactionCount (s : PState) : ℕ :=
  match s.interaction with
  | none => 0
  | some i => (ids s).count i

/-- The particle built by createInteractionParticle: a freshly created
particle whose velocity is overwritten with (0, 0). -/
def interactionPart (w h : ℚ) (r : Rnd) : Particle :=
  { createParticle w h options.particleColors options.velocity r none none with
    velocity := { x := 0, y := 0 } }

/-- createInteractionParticle from the source: build the zero-velocity
particle, push it onto the store and hold the reference to it. -/
def createInteractionParticle (w h : ℚ) (r : Rnd) (s : PState) : PState :=
  { particles := s.particles ++ [{ pid := s.nextId, part := interactionPart w h r }]
    interaction := some s.nextId
    nextId := s.nextId + 1 }

/-- Overwrite the position of the entry carrying a given id. -/
def setPosIf (i : ℕ) (x y : ℚ) (q : IdParticle) : IdParticle :=
  if q.pid = i then { q with part := { q.part with x := x, y := y } } else q

/-- The mousemove / touchmove handler: create the interaction particle when
the reference is unset, then force the position of the referenced store
entry (a no-op on the store when the reference dangles). -/
def pointerMove (w h x y : ℚ) (r : Rnd) (s : PState) : PState :=
  let s1 := if s.interaction = none then createInteractionParticle w h r s else s
  match s1.interaction with
  | none => s1
  | some i => { s1 with particles := s1.particles.map (setPosIf i x y) }

/-- removeInteractionParticle from the source: when the reference is set
and indexOf finds the entry, clear the reference and splice out the first
entry with that identity; otherwise do nothing (in particular a dangling
reference is kept). -/
def removeInteractionParticle (s : PState) : PState :=
  match s.interaction with
  | none => s
  | some i =>
    if s.particles.any (fun q => q.pid == i) then
      { s with particles := s.particles.eraseP (fun q => q.pid == i),
               interaction := none }
    else s

/-- An ordinary-particle append: a tick of the throttled spawner, a tick of
the mousedown spawn timer, or a touchstart tap spawn. -/
def spawnOrdinary (w h : ℚ) (r : Rnd) (ox oy : Option ℚ) (s : PState) : PState :=
  { s with
    particles := s.particles ++
      [{ pid := s.nextId
         part := createParticle w h options.particleColors options.velocity r ox oy }]
    nextId := s.nextId + 1 }

/-- The store-clearing part of the debounced resize handler: the source
sets particles.length = 0 and does NOT clear the interactionParticle
reference. -/
def resizeClearStore (s : PState) : PState := { s with particles := [] }

/-- The events that mutate the store. -/
inductive Ev where
  | move (x y : ℚ) (r : Rnd)
  | leave
  | spawn (r : Rnd) (ox oy : Option ℚ)
  | resize
deriving DecidableEq

/-- Dispatch one event to the handler it triggers in the source. -/
def step (w h : ℚ) (s : PState) (e : Ev) : PState :=
  match e with
  | .move x y r => pointerMove w h x y r s
  | .leave => removeInteractionParticle s
  | .spawn r ox oy => spawnOrdinary w h r ox oy s
  | .resize => resizeClearStore s

/-- Run a sequence of events from the initial state. -/
def run (w h : ℚ) (evs : List Ev) : PState := evs.foldl (step w h) initState

/-- Well-formedness: store ids are distinct and below the fresh counter. -/
def WFS (s : PState) : Prop :=
  (ids s).Nodup ∧ ∀ j ∈ ids s, j < s.nextId

/-- The interaction reference, when set, points into the store. -/
def NoDangle (s : PState) : Prop :=
  ∀ i, s.interaction = some i → i ∈ ids s

/-- A concrete bundle of random draws, used in concrete evaluations. -/
def rnd0 : Rnd :=
  { rPosX := 1/2, rPosY := 1/2, rRadius := 0, rColor := 0, rVelX := 1/2, rVelY := 1/2 }

/-- A concrete particle at the origin, fully faded in. -/
def pA : Particle :=
  { opacity := 1, x := 0, y := 0, radius := 2, particleColor := some "#aaa",
    velocity := { x := 0, y := 0 } }

/-- A concrete particle at (300, 400): Euclidean distance 500 from pA. -/
def pB : Particle :=
  { opacity := 1, x := 300, y := 400, radius := 2, particleColor := some "#aaa",
    velocity := { x := 0, y := 0 } }

/-- A concrete particle at (200, 0): Euclidean distance 200 from pA. -/
def pC : Particle :=
  { opacity := 1, x := 200, y := 0, radius := 2, particleColor := some "#aaa",
    velocity := { x := 0, y := 0 } }

/-- A concrete particle just beyond the right reversal bound of an
800-wide surface, moving right at one half per frame. -/
def pD : Particle :=
  { opacity := 0, x := 3601/4, y := 0, radius := 2, particleColor := some "#aaa",
    velocity := { x := 1/2, y := 0 } }

/-- A concrete fresh particle used as a fade-in start state. -/
def pE : Particle :=
  { opacity := 0, x := 10, y := 20, radius := 2, particleColor := some "#aaa",
    velocity := { x := 1/4, y := -1/4 } }

/-- A concrete state holding one entry that the interaction reference
points at. -/
def sW : PState :=
  { particles := [{ pid := 0, part := pA }], interaction := some 0, nextId := 1 }

/-- A concrete state with one ordinary entry and no interaction
reference. -/
def sV : PState :=
  { particles := [{ pid := 0, part := pA }], interaction := none, nextId := 1 }

/-- The opacity values reachable from a fresh particle: an integer number
of fade-in increments, at most one hundred of them. -/
def OpacityInv (o : ℚ) : Prop := ∃ k : ℕ, k ≤ 100 ∧ o = k / 100

theorem throttledGo_succ (f c : ℕ) (q : ℚ) :
    throttledGo (f + 1) c q =
      if (c : ℚ) < q - 1 then throttledGo f (c + 1) q + 1 else 0 := rfl

theorem throttledGo_32 (f : ℕ) : ∀ c : ℕ, throttledGo f c 32 = min f (31 - c) := by
  induction f with
  | zero => intro c; simp [throttledGo]
  | succ f ih =>
    intro c
    by_cases h : c < 31
    · have hc : (c : ℚ) < 32 - 1 := by
        have h31 : (c : ℚ) < ((31 : ℕ) : ℚ) := by exact_mod_cast h
        push_cast at h31
        linarith
      rw [throttledGo_succ, if_pos hc, ih]
      omega
    · have hc : ¬((c : ℚ) < 32 - 1) := by
        intro hcon
        apply h
        have h31 : (c : ℚ) < ((31 : ℕ) : ℚ) := by push_cast; linarith
        exact_mod_cast h31
      rw [throttledGo_succ, if_neg hc]
      omega

theorem syncGo_succ (f c : ℕ) (q : ℚ) :
    syncGo (f + 1) c q =
      if (c : ℚ) < q then syncGo f (c + 1) q + 1 else 0 := rfl

theorem syncGo_32 (f : ℕ) : ∀ c : ℕ, syncGo f c 32 = min f (32 - c) := by
  induction f with
  | zero => intro c; simp [syncGo]
  | succ f ih =>
    intro c
    by_cases h : c < 32
    · have hc : (c : ℚ) < 32 := by exact_mod_cast h
      rw [syncGo_succ, if_pos hc, ih]
      omega
    · have hc : ¬((c : ℚ) < 32) := by
        intro hcon
        exact h (by exact_mod_cast hcon)
      rw [syncGo_succ, if_neg hc]
      omega

theorem throttledCount_32 : throttledCount 32 = 31 := by
  have h : ⌈(32 : ℚ)⌉.toNat + 1 = 33 := by norm_num; decide
  unfold throttledCount
  rw [h, throttledGo_32]
  omega

theorem syncCount_32 : syncCount 32 = 32 := by
  have h : ⌈(32 : ℚ)⌉.toNat + 1 = 33 := by norm_num; decide
  unfold syncCount
  rw [h, syncGo_32]
  omega

theorem quantity_800_600 : quantity 800 600 = 32 := by
  unfold quantity
  norm_num [options]

/-- Claim C1: the claim states that the initial throttled spawn appends
exactly the target quantity surfaceArea / densityDivisor, in particular 32
particles for a 800x600 surface at divisor 15000.  The code's interval
callback appends only while counter < quantity - 1, so it appends 31
particles there, while the synchronous branch of the very same function
appends 32: the throttled branch is off by one against both the spec and
the code's own other branch. -/
theorem claim_C1_code_eval :
    throttledCount (quantity 800 600) = 31 ∧ syncCount (quantity 800 600) = 32 := by
  rw [quantity_800_600]
  exact ⟨throttledCount_32, syncCount_32⟩

/-- Claim C8: the resize handler does clear the store wholesale (no
residual particles), but it repopulates through createParticles(true),
whose throttled loop appends 31 particles for the new 800x600 surface,
not the target quantity 32 the claim states. -/
theorem claim_C8_code_eval :
    (∀ s : PState, (resizeClearStore s).particles = []) ∧
      throttledCount (quantity 800 600) = 31 := by
  refine ⟨fun s => rfl, ?_⟩
  rw [quantity_800_600]
  exact throttledCount_32

/-- Claim C2: the claim states that an override coordinate of 0 is honored
exactly.  The code combines the override with the random default through
the JS || operator, so createParticle(0, 50) with random draw 1/2 yields
x = 400 (the random default 0.5 * 800), not 0, while the truthy override
y = 50 is honored. -/
theorem claim_C2_code_eval :
    (createParticle 800 600 options.particleColors options.velocity rnd0
        (some 0) (some 50)).x = 400 ∧
      (createParticle 800 600 options.particleColors options.velocity rnd0
        (some 0) (some 50)).y = 50 := by
  constructor
  · show jsOr (some 0) (rnd0.rPosX * 800) = 400
    norm_num [jsOr, rnd0]
  · show jsOr (some 50) (rnd0.rPosY * 600) = 50
    norm_num [jsOr]

theorem jsIndex_nil (i : ℤ) : jsIndex [] i = none := by
  unfold jsIndex
  split <;> simp

/-- Claim C9 counterexample: with an empty palette the created particle
carries an undefined color, yet drawParticle still produces a draw call,
so the system does not degrade to zero draw calls as the claim states. -/
theorem claim_C9_counterexample :
    (createParticle 800 600 [] options.velocity rnd0 none none).particleColor = none ∧
      drawParticle (createParticle 800 600 [] options.velocity rnd0 none none) ≠ [] := by
  constructor
  · show jsIndex [] _ = none
    exact jsIndex_nil _
  · simp [drawParticle]

/-- Claim C9 amended: with an empty palette, creation and rendering still
succeed without failing, but the renderer emits exactly one disc draw call
per particle, and that call carries the undefined (absent) color. -/
theorem claim_C9_amended (w h vel : ℚ) (r : Rnd) (ox oy : Option ℚ) :
    (createParticle w h [] vel r ox oy).particleColor = none ∧
      (drawParticle (createParticle w h [] vel r ox oy)).length = 1 ∧
      (drawParticle (createParticle w h [] vel r ox oy)).map DiscCall.fillStyle = [none] := by
  have hc : (createParticle w h [] vel r ox oy).particleColor = none := jsIndex_nil _
  exact ⟨hc, rfl, by simp [drawParticle, hc]⟩

theorem removeInteractionParticle_none (ps : List IdParticle) (n : ℕ) :
    removeInteractionParticle ⟨ps, none, n⟩ = ⟨ps, none, n⟩ := rfl

theorem removeInteractionParticle_some (ps : List IdParticle) (i n : ℕ) :
    removeInteractionParticle ⟨ps, some i, n⟩ =
      if ps.any (fun q => q.pid == i) then
        ⟨ps.eraseP (fun q => q.pid == i), none, n⟩
      else ⟨ps, some i, n⟩ := rfl

/-- Claim C10: removing the interaction particle is a no-op when the
reference is unset (the store and the reference are left entirely
unchanged), and the removal is idempotent, so repeated pointer-leave or
touch-end events never remove an ordinary particle. -/
theorem claim_C10 (s : PState) :
    (s.interaction = none → removeInteractionParticle s = s) ∧
      removeInteractionParticle (removeInteractionParticle s) =
        removeInteractionParticle s := by
  obtain ⟨ps, oi, n⟩ := s
  cases oi with
  | none => exact ⟨fun _ => rfl, rfl⟩
  | some i =>
    refine ⟨fun hcontra => by simp at hcontra, ?_⟩
    by_cases hA : ps.any (fun q => q.pid == i)
    · rw [removeInteractionParticle_some, if_pos hA, removeInteractionParticle_none]
    · rw [removeInteractionParticle_some, if_neg hA, removeInteractionParticle_some,
        if_neg hA]

/-- Witness for claim C10 at a concrete one-entry state with the reference
unset. -/
theorem claim_C10_witness :
    sV.interaction = none ∧ removeInteractionParticle sV = sV ∧
      removeInteractionParticle (removeInteractionParticle sV) =
        removeInteractionParticle sV :=
  ⟨rfl, (claim_C10 sV).1 rfl, (claim_C10 sV).2⟩

theorem updateParticle_opacity (w h : ℚ) (p : Particle) :
    (updateParticle w h p).opacity =
      if p.opacity < 1 then p.opacity + 1/100 else 1 := rfl

theorem opacityInv_step (o : ℚ) (hI : OpacityInv o) :
    OpacityInv (if o < 1 then o + 1/100 else 1) := by
  obtain ⟨k, hk, rfl⟩ := hI
  by_cases h : (k : ℚ) / 100 < 1
  · have hklt : k < 100 := by
      by_contra hge
      push_neg at hge
      have h100 : (100 : ℚ) ≤ (k : ℚ) := by exact_mod_cast hge
      rw [div_lt_one (by norm_num : (0:ℚ) < 100)] at h
      linarith
    rw [if_pos h]
    exact ⟨k + 1, by omega, by push_cast; ring⟩
  · rw [if_neg h]
    exact ⟨100, le_refl _, by norm_num⟩

theorem opacityInv_bounds (o : ℚ) (hI : OpacityInv o) : 0 ≤ o ∧ o ≤ 1 := by
  obtain ⟨k, hk, rfl⟩ := hI
  constructor
  · positivity
  · rw [div_le_one (by norm_num : (0:ℚ) < 100)]
    exact_mod_cast hk

theorem opacity_iterate_inv (w h : ℚ) (p : Particle) (hp : p.opacity = 0) :
    ∀ n : ℕ, OpacityInv ((updateParticle w h)^[n] p).opacity := by
  intro n
  induction n with
  | zero => exact ⟨0, by omega, by simp [hp]⟩
  | succ n ih =>
    rw [Function.iterate_succ_apply', updateParticle_opacity]
    exact opacityInv_step _ ih

/-- Claim C3: a particle created with opacity 0 keeps its opacity inside
[0, 1] under every animation-loop update; the opacity never decreases, and
once it reaches 1 it stays at 1. -/
theorem claim_C3 (w h : ℚ) (p : Particle) (hp : p.opacity = 0) (n : ℕ) :
    (0 ≤ ((updateParticle w h)^[n] p).opacity ∧
      ((updateParticle w h)^[n] p).opacity ≤ 1) ∧
      ((updateParticle w h)^[n] p).opacity ≤
        ((updateParticle w h)^[n + 1] p).opacity ∧
      (((updateParticle w h)^[n] p).opacity = 1 →
        ((updateParticle w h)^[n + 1] p).opacity = 1) := by
  have hinv := opacity_iterate_inv w h p hp n
  have hb := opacityInv_bounds _ hinv
  refine ⟨hb, ?_, ?_⟩
  · rw [Function.iterate_succ_apply', updateParticle_opacity]
    by_cases hlt : ((updateParticle w h)^[n] p).opacity < 1
    · rw [if_pos hlt]; linarith
    · rw [if_neg hlt]; exact hb.2
  · intro h1
    rw [Function.iterate_succ_apply', updateParticle_opacity, h1]
    norm_num

/-- Witness for claim C3: a concrete fresh particle on a 800x600 surface
after three updates. -/
theorem claim_C3_witness :
    pE.opacity = 0 ∧
      ((0 ≤ ((updateParticle 800 600)^[3] pE).opacity ∧
        ((updateParticle 800 600)^[3] pE).opacity ≤ 1) ∧
        ((updateParticle 800 600)^[3] pE).opacity ≤
          ((updateParticle 800 600)^[3 + 1] pE).opacity ∧
        (((updateParticle 800 600)^[3] pE).opacity = 1 →
          ((updateParticle 800 600)^[3 + 1] pE).opacity = 1)) :=
  ⟨rfl, claim_C3 800 600 pE rfl 3⟩

theorem rat_min_abs_le_dist (p1 p2 : Particle) :
    ((min |p1.x - p2.x| |p1.y - p2.y| : ℚ) : ℝ) ≤ dist p1 p2 := by
  have h1 : ((min |p1.x - p2.x| |p1.y - p2.y| : ℚ) : ℝ) ≤ |((p1.x - p2.x : ℚ) : ℝ)| := by
    have hq : (min |p1.x - p2.x| |p1.y - p2.y| : ℚ) ≤ |p1.x - p2.x| := min_le_left _ _
    calc ((min |p1.x - p2.x| |p1.y - p2.y| : ℚ) : ℝ)
        ≤ ((|p1.x - p2.x| : ℚ) : ℝ) := by exact_mod_cast hq
      _ = |((p1.x - p2.x : ℚ) : ℝ)| := by push_cast; ring
  have h2 : |((p1.x - p2.x : ℚ) : ℝ)| ≤ dist p1 p2 := by
    rw [← Real.sqrt_sq_eq_abs]
    unfold dist
    apply Real.sqrt_le_sqrt
    nlinarith [sq_nonneg (((p1.y - p2.y : ℚ) : ℝ))]
  exact h1.trans h2

theorem lineCallPre_eq_ref (p1 p2 : Particle) : lineCallPre p1 p2 = lineCallRef p1 p2 := by
  unfold lineCallPre lineCallRef
  by_cases hm : min |p1.x - p2.x| |p1.y - p2.y| > options.netLineDistance
  · rw [if_pos hm]
    have hcast : ((options.netLineDistance : ℚ) : ℝ) <
        ((min |p1.x - p2.x| |p1.y - p2.y| : ℚ) : ℝ) := by exact_mod_cast hm
    have hd : dist p1 p2 > (options.netLineDistance : ℝ) :=
      lt_of_lt_of_le hcast (rat_min_abs_le_dist p1 p2)
    rw [if_pos hd]
  · rw [if_neg hm]

/-- Claim C4: the cheap pre-filter bound min(|dx|, |dy|) is a lower bound
on the Euclidean distance, the pre-filtered pair body equals the
exact-distance reference body on every pair, and consequently the full
per-frame renderers produce identical draw-call lists. -/
theorem claim_C4 :
    (∀ p1 p2 : Particle,
      ((min |p1.x - p2.x| |p1.y - p2.y| : ℚ) : ℝ) ≤ dist p1 p2) ∧
      (∀ p1 p2 : Particle, lineCallPre p1 p2 = lineCallRef p1 p2) ∧
      (∀ ps : List Particle, drawLinesPre ps = drawLinesRef ps) := by
  refine ⟨rat_min_abs_le_dist, lineCallPre_eq_ref, ?_⟩
  intro ps
  unfold drawLinesPre drawLinesRef
  apply List.filterMap_congr
  intro ij _
  unfold pairCall
  cases ps.get? ij.1 <;> cases ps.get? ij.2 <;> simp [lineCallPre_eq_ref]

/-- Claim C5: a pair farther apart than netLineDistance produces no line
draw call; a pair within the threshold produces exactly one line call
whose alpha is ((netLineDistance - distance) / netLineDistance) *
p1.opacity * p2.opacity; a pair at distance exactly netLineDistance
produces a line call with alpha 0. -/
theorem claim_C5 (p1 p2 : Particle) :
    ((options.netLineDistance : ℝ) < dist p1 p2 → lineCallPre p1 p2 = none) ∧
      (dist p1 p2 ≤ (options.netLineDistance : ℝ) →
        lineCallPre p1 p2 = some ⟨p1.x, p1.y, p2.x, p2.y,
          (((options.netLineDistance : ℝ) - dist p1 p2) /
              (options.netLineDistance : ℝ)) *
            (p1.opacity : ℝ) * (p2.opacity : ℝ)⟩) ∧
      (dist p1 p2 = (options.netLineDistance : ℝ) →
        lineCallPre p1 p2 = some ⟨p1.x, p1.y, p2.x, p2.y, 0⟩) := by
  have hpart2 : dist p1 p2 ≤ (options.netLineDistance : ℝ) →
      lineCallPre p1 p2 = some ⟨p1.x, p1.y, p2.x, p2.y, lineAlpha p1 p2⟩ := by
    intro hle
    have hmq : ¬(min |p1.x - p2.x| |p1.y - p2.y| > options.netLineDistance) := by
      rw [not_lt]
      have hR : ((min |p1.x - p2.x| |p1.y - p2.y| : ℚ) : ℝ) ≤
          ((options.netLineDistance : ℚ) : ℝ) :=
        (rat_min_abs_le_dist p1 p2).trans hle
      exact_mod_cast hR
    unfold lineCallPre
    rw [if_neg hmq, if_neg (not_lt.mpr hle)]
  refine ⟨?_, fun hle => hpart2 hle, ?_⟩
  · intro hgt
    unfold lineCallPre
    by_cases hm : min |p1.x - p2.x| |p1.y - p2.y| > options.netLineDistance
    · rw [if_pos hm]
    · rw [if_neg hm, if_pos hgt]
  · intro heq
    rw [hpart2 (le_of_eq heq)]
    unfold lineAlpha
    rw [heq]
    norm_num

theorem dist_pA_pB : dist pA pB = 500 := by
  have h : dist pA pB = Real.sqrt (250000 : ℝ) := by
    unfold dist pA pB
    norm_num
  rw [h, show (250000 : ℝ) = 500 ^ 2 by norm_num,
    Real.sqrt_sq (by norm_num : (0:ℝ) ≤ 500)]

theorem dist_pA_pC : dist pA pC = 200 := by
  have h : dist pA pC = Real.sqrt (40000 : ℝ) := by
    unfold dist pA pC
    norm_num
  rw [h, show (40000 : ℝ) = 200 ^ 2 by norm_num,
    Real.sqrt_sq (by norm_num : (0:ℝ) ≤ 200)]

/-- Witness for claim C5: the pair pA, pB at distance 500 produces no line
call, and the pair pA, pC at distance exactly 200 produces a line call of
alpha 0. -/
theorem claim_C5_witness :
    ((options.netLineDistance : ℝ) < dist pA pB ∧ lineCallPre pA pB = none) ∧
      (dist pA pC = (options.netLineDistance : ℝ) ∧
        lineCallPre pA pC = some ⟨pA.x, pA.y, pC.x, pC.y, 0⟩) := by
  have h1 : (options.netLineDistance : ℝ) < dist pA pB := by
    rw [dist_pA_pB]
    norm_num [options]
  have h2 : dist pA pC = (options.netLineDistance : ℝ) := by
    rw [dist_pA_pC]
    norm_num [options]
  exact ⟨⟨h1, (claim_C5 pA pB).1 h1⟩, ⟨h2, (claim_C5 pA pC).2.2 h2⟩⟩

theorem updateParticle_vx (w h : ℚ) (p : Particle) :
    (updateParticle w h p).velocity.x =
      if p.x > w + 100 ∨ p.x < -100 then -p.velocity.x else p.velocity.x := rfl

theorem updateParticle_vy (w h : ℚ) (p : Particle) :
    (updateParticle w h p).velocity.y =
      if p.y > h + 100 ∨ p.y < -100 then -p.velocity.y else p.velocity.y := rfl

theorem updateParticle_px (w h : ℚ) (p : Particle) :
    (updateParticle w h p).x =
      p.x + (if p.x > w + 100 ∨ p.x < -100 then -p.velocity.x else p.velocity.x) := rfl

theorem updateParticle_py (w h : ℚ) (p : Particle) :
    (updateParticle w h p).y =
      p.y + (if p.y > h + 100 ∨ p.y < -100 then -p.velocity.y else p.velocity.y) := rfl

/-- Claim C6: a particle that has just crossed a reversal bound by at most
one velocity step has that velocity component reversed on the next update,
the position integrated with the reversed velocity, and the component is
not reversed again on the following update.  The four conjuncts cover the
right and left horizontal bounds and the lower and upper vertical
bounds. -/
theorem claim_C6 (w h : ℚ) (p : Particle) :
    (0 < p.velocity.x → w + 100 < p.x → p.x ≤ w + 100 + p.velocity.x →
      p.velocity.x ≤ w + 200 →
      (updateParticle w h p).velocity.x = -p.velocity.x ∧
        (updateParticle w h p).x = p.x - p.velocity.x ∧
        (updateParticle w h (updateParticle w h p)).velocity.x = -p.velocity.x) ∧
      (p.velocity.x < 0 → p.x < -100 → -100 + p.velocity.x ≤ p.x →
        -p.velocity.x ≤ w + 200 →
        (updateParticle w h p).velocity.x = -p.velocity.x ∧
          (updateParticle w h p).x = p.x - p.velocity.x ∧
          (updateParticle w h (updateParticle w h p)).velocity.x = -p.velocity.x) ∧
      (0 < p.velocity.y → h + 100 < p.y → p.y ≤ h + 100 + p.velocity.y →
        p.velocity.y ≤ h + 200 →
        (updateParticle w h p).velocity.y = -p.velocity.y ∧
          (updateParticle w h p).y = p.y - p.velocity.y ∧
          (updateParticle w h (updateParticle w h p)).velocity.y = -p.velocity.y) ∧
      (p.velocity.y < 0 → p.y < -100 → -100 + p.velocity.y ≤ p.y →
        -p.velocity.y ≤ h + 200 →
        (updateParticle w h p).velocity.y = -p.velocity.y ∧
          (updateParticle w h p).y = p.y - p.velocity.y ∧
          (updateParticle w h (updateParticle w h p)).velocity.y = -p.velocity.y) := by
  refine ⟨?_, ?_, ?_, ?_⟩
  · intro h1 h2 h3 h4
    have hc : p.x > w + 100 ∨ p.x < -100 := Or.inl h2
    have e1 : (updateParticle w h p).velocity.x = -p.velocity.x := by
      rw [updateParticle_vx, if_pos hc]
    have e2 : (updateParticle w h p).x = p.x - p.velocity.x := by
      rw [updateParticle_px, if_pos hc]; ring
    refine ⟨e1, e2, ?_⟩
    have hnc : ¬((updateParticle w h p).x > w + 100 ∨ (updateParticle w h p).x < -100) := by
      rw [e2]
      rintro (hbad | hbad) <;> linarith
    rw [updateParticle_vx, if_neg hnc, e1]
  · intro h1 h2 h3 h4
    have hc : p.x > w + 100 ∨ p.x < -100 := Or.inr h2
    have e1 : (updateParticle w h p).velocity.x = -p.velocity.x := by
      rw [updateParticle_vx, if_pos hc]
    have e2 : (updateParticle w h p).x = p.x - p.velocity.x := by
      rw [updateParticle_px, if_pos hc]; ring
    refine ⟨e1, e2, ?_⟩
    have hnc : ¬((updateParticle w h p).x > w + 100 ∨ (updateParticle w h p).x < -100) := by
      rw [e2]
      rintro (hbad | hbad) <;> linarith
    rw [updateParticle_vx, if_neg hnc, e1]
  · intro h1 h2 h3 h4
    have hc : p.y > h + 100 ∨ p.y < -100 := Or.inl h2
    have e1 : (updateParticle w h p).velocity.y = -p.velocity.y := by
      rw [updateParticle_vy, if_pos hc]
    have e2 : (updateParticle w h p).y = p.y - p.velocity.y := by
      rw [updateParticle_py, if_pos hc]; ring
    refine ⟨e1, e2, ?_⟩
    have hnc : ¬((updateParticle w h p).y > h + 100 ∨ (updateParticle w h p).y < -100) := by
      rw [e2]
      rintro (hbad | hbad) <;> linarith
    rw [updateParticle_vy, if_neg hnc, e1]
  · intro h1 h2 h3 h4
    have hc : p.y > h + 100 ∨ p.y < -100 := Or.inr h2
    have e1 : (updateParticle w h p).velocity.y = -p.velocity.y := by
      rw [updateParticle_vy, if_pos hc]
    have e2 : (updateParticle w h p).y = p.y - p.velocity.y := by
      rw [updateParticle_py, if_pos hc]; ring
    refine ⟨e1, e2, ?_⟩
    have hnc : ¬((updateParticle w h p).y > h + 100 ∨ (updateParticle w h p).y < -100) := by
      rw [e2]
      rintro (hbad | hbad) <;> linarith
    rw [updateParticle_vy, if_neg hnc, e1]

/-- Witness for claim C6: the concrete particle pD sits at x = 900.25 just
past the right bound 900 of an 800-wide surface, moving right at 0.5. -/
theorem claim_C6_witness :
    (0 < pD.velocity.x ∧ (800:ℚ) + 100 < pD.x ∧ pD.x ≤ 800 + 100 + pD.velocity.x ∧
      pD.velocity.x ≤ 800 + 200) ∧
      ((updateParticle 800 600 pD).velocity.x = -pD.velocity.x ∧
        (updateParticle 800 600 pD).x = pD.x - pD.velocity.x ∧
        (updateParticle 800 600 (updateParticle 800 600 pD)).velocity.x =
          -pD.velocity.x) := by
  have h1 : 0 < pD.velocity.x := by norm_num [pD]
  have h2 : (800:ℚ) + 100 < pD.x := by norm_num [pD]
  have h3 : pD.x ≤ 800 + 100 + pD.velocity.x := by norm_num [pD]
  have h4 : pD.velocity.x ≤ 800 + 200 := by norm_num [pD]
  exact ⟨⟨h1, h2, h3, h4⟩, (claim_C6 800 600 pD).1 h1 h2 h3 h4⟩


theorem setPosIf_pid (i : ℕ) (x y : ℚ) (q : IdParticle) :
    (setPosIf i x y q).pid = q.pid := by
  unfold setPosIf
  split <;> rfl

theorem map_setPosIf_pid (l : List IdParticle) (i : ℕ) (x y : ℚ) :
    (l.map (setPosIf i x y)).map IdParticle.pid = l.map IdParticle.pid := by
  rw [List.map_map]
  exact List.map_congr_left fun q _ => setPosIf_pid i x y q

theorem pointerMove_none (w h x y : ℚ) (r : Rnd) (ps : List IdParticle) (n : ℕ) :
    pointerMove w h x y r { particles := ps, interaction := none, nextId := n } =
      { particles :=
          (ps ++ [({ pid := n, part := interactionPart w h r } : IdParticle)]).map (setPosIf n x y),
        interaction := some n, nextId := n + 1 } := rfl

theorem pointerMove_some (w h x y : ℚ) (r : Rnd) (ps : List IdParticle) (i n : ℕ) :
    pointerMove w h x y r { particles := ps, interaction := some i, nextId := n } =
      { particles := ps.map (setPosIf i x y), interaction := some i, nextId := n } := rfl

theorem spawnOrdinary_eq (w h : ℚ) (r : Rnd) (ox oy : Option ℚ)
    (ps : List IdParticle) (oi : Option ℕ) (n : ℕ) :
    spawnOrdinary w h r ox oy { particles := ps, interaction := oi, nextId := n } =
      { particles := ps ++
          [({ pid := n,
              part := createParticle w h options.particleColors options.velocity r ox oy } :
            IdParticle)],
        interaction := oi, nextId := n + 1 } := rfl

theorem wfs_push (ps : List IdParticle) (oi oi2 : Option ℕ) (n : ℕ) (p : Particle)
    (hs : WFS { particles := ps, interaction := oi, nextId := n }) :
    WFS { particles := ps ++ [({ pid := n, part := p } : IdParticle)], interaction := oi2,
          nextId := n + 1 } := by
  obtain ⟨hnd, hbd⟩ := hs
  constructor
  · show ((ps ++ [({ pid := n, part := p } : IdParticle)]).map IdParticle.pid).Nodup
    rw [List.map_append, List.nodup_append]
    refine ⟨hnd, List.nodup_singleton _, ?_⟩
    intro a ha hb
    rw [List.map_cons, List.map_nil, List.mem_singleton] at hb
    have hb2 : a = n := hb
    have hlt : a < n := hbd _ ha
    omega
  · intro j hj
    show j < n + 1
    have hj2 : j ∈ ps.map IdParticle.pid ++ [n] := by
      have he : ((ps ++ [({ pid := n, part := p } : IdParticle)]).map IdParticle.pid) =
          ps.map IdParticle.pid ++ [n] := by
        rw [List.map_append, List.map_cons, List.map_nil]
      exact he ▸ hj
    rw [List.mem_append, List.mem_singleton] at hj2
    rcases hj2 with hj2 | hj2
    · exact Nat.lt_succ_of_lt (hbd _ hj2)
    · omega

theorem wfs_map (ps : List IdParticle) (oi oi2 : Option ℕ) (n i : ℕ) (x y : ℚ)
    (hs : WFS { particles := ps, interaction := oi, nextId := n }) :
    WFS { particles := ps.map (setPosIf i x y), interaction := oi2, nextId := n } := by
  obtain ⟨hnd, hbd⟩ := hs
  constructor
  · show ((ps.map (setPosIf i x y)).map IdParticle.pid).Nodup
    rw [map_setPosIf_pid]
    exact hnd
  · intro j hj
    apply hbd
    have hj2 : j ∈ (ps.map (setPosIf i x y)).map IdParticle.pid := hj
    rw [map_setPosIf_pid] at hj2
    exact hj2

theorem wfs_erase (ps : List IdParticle) (oi oi2 : Option ℕ) (n : ℕ)
    (pred : IdParticle → Bool)
    (hs : WFS { particles := ps, interaction := oi, nextId := n }) :
    WFS { particles := ps.eraseP pred, interaction := oi2, nextId := n } := by
  obtain ⟨hnd, hbd⟩ := hs
  have hsub : ((ps.eraseP pred).map IdParticle.pid).Sublist (ps.map IdParticle.pid) :=
    List.Sublist.map IdParticle.pid (List.eraseP_sublist ps)
  constructor
  · exact List.Nodup.sublist hsub hnd
  · intro j hj
    exact hbd j (hsub.subset hj)

theorem wfs_step (w h : ℚ) (e : Ev) (s : PState) (hs : WFS s) :
    WFS (step w h s e) := by
  obtain ⟨ps, oi, n⟩ := s
  cases e with
  | move x y r =>
    cases oi with
    | none =>
      show WFS (pointerMove w h x y r { particles := ps, interaction := none, nextId := n })
      rw [pointerMove_none]
      exact wfs_map (ps ++ [({ pid := n, part := interactionPart w h r } : IdParticle)]) none (some n)
        (n + 1) n x y (wfs_push ps none none n (interactionPart w h r) hs)
    | some i =>
      show WFS (pointerMove w h x y r { particles := ps, interaction := some i, nextId := n })
      rw [pointerMove_some]
      exact wfs_map ps (some i) (some i) n i x y hs
  | leave =>
    cases oi with
    | none => exact hs
    | some i =>
      show WFS (removeInteractionParticle { particles := ps, interaction := some i, nextId := n })
      rw [removeInteractionParticle_some]
      by_cases hA : ps.any fun q => q.pid == i
      · rw [if_pos hA]
        exact wfs_erase ps (some i) none n _ hs
      · rw [if_neg hA]
        exact hs
  | spawn r ox oy =>
    show WFS (spawnOrdinary w h r ox oy { particles := ps, interaction := oi, nextId := n })
    rw [spawnOrdinary_eq]
    exact wfs_push ps oi oi n _ hs
  | resize =>
    constructor
    · show (List.map IdParticle.pid []).Nodup
      exact List.nodup_nil
    · intro j hj
      exact absurd (show j ∈ List.map IdParticle.pid [] from hj) (by simp)

theorem nodangle_step (w h : ℚ) (e : Ev) (s : PState) (hne : e ≠ Ev.resize)
    (hs : WFS s ∧ NoDangle s) :
    WFS (step w h s e) ∧ NoDangle (step w h s e) := by
  obtain ⟨hw, hd⟩ := hs
  refine ⟨wfs_step w h e s hw, ?_⟩
  obtain ⟨ps, oi, n⟩ := s
  cases e with
  | move x y r =>
    cases oi with
    | none =>
      show NoDangle (pointerMove w h x y r { particles := ps, interaction := none, nextId := n })
      rw [pointerMove_none]
      intro j hj
      have hnj : n = j := Option.some.inj hj
      subst hnj
      show n ∈ ((ps ++ [({ pid := n, part := interactionPart w h r } : IdParticle)]).map
        (setPosIf n x y)).map IdParticle.pid
      rw [map_setPosIf_pid, List.map_append, List.map_cons, List.map_nil,
        List.mem_append, List.mem_singleton]
      exact Or.inr rfl
    | some i =>
      show NoDangle (pointerMove w h x y r { particles := ps, interaction := some i, nextId := n })
      rw [pointerMove_some]
      intro j hj
      have hij : i = j := Option.some.inj hj
      subst hij
      show i ∈ (ps.map (setPosIf i x y)).map IdParticle.pid
      rw [map_setPosIf_pid]
      exact hd i rfl
  | leave =>
    cases oi with
    | none => exact hd
    | some i =>
      show NoDangle (removeInteractionParticle { particles := ps, interaction := some i, nextId := n })
      rw [removeInteractionParticle_some]
      by_cases hA : ps.any fun q => q.pid == i
      · rw [if_pos hA]
        intro j hj
        exact absurd hj (by simp)
      · rw [if_neg hA]
        exact hd
  | spawn r ox oy =>
    show NoDangle (spawnOrdinary w h r ox oy { particles := ps, interaction := oi, nextId := n })
    rw [spawnOrdinary_eq]
    intro j hj
    have hmem : j ∈ ps.map IdParticle.pid := hd j hj
    show j ∈ (ps ++
      [({ pid := n,
          part := createParticle w h options.particleColors options.velocity r ox oy } :
        IdParticle)]).map IdParticle.pid
    rw [List.map_append, List.mem_append]
    exact Or.inl hmem
  | resize => exact absurd rfl hne

theorem interactionCount_le_one (s : PState) (hs : WFS s) :
    interactionCount s ≤ 1 := by
  obtain ⟨ps, oi, n⟩ := s
  cases oi with
  | none => exact Nat.zero_le 1
  | some i =>
    show ((ps.map IdParticle.pid).count i) ≤ 1
    exact List.nodup_iff_count_le_one.mp hs.1 i

theorem interactionCount_pointerMove (w h x y : ℚ) (r : Rnd) (s : PState)
    (hw : WFS s) (hd : NoDangle s) :
    interactionCount (pointerMove w h x y r s) = 1 := by
  obtain ⟨ps, oi, n⟩ := s
  cases oi with
  | none =>
    rw [pointerMove_none]
    show ((((ps ++ [({ pid := n, part := interactionPart w h r } : IdParticle)]).map
      (setPosIf n x y)).map IdParticle.pid).count n) = 1
    rw [map_setPosIf_pid]
    apply List.count_eq_one_of_mem
    · exact (wfs_push ps none none n (interactionPart w h r) hw).1
    · rw [List.map_append, List.map_cons, List.map_nil, List.mem_append,
        List.mem_singleton]
      exact Or.inr rfl
  | some i =>
    rw [pointerMove_some]
    show (((ps.map (setPosIf i x y)).map IdParticle.pid).count i) = 1
    rw [map_setPosIf_pid]
    exact List.count_eq_one_of_mem hw.1 (hd i rfl)

theorem run_append (w h : ℚ) (evs : List Ev) (e : Ev) :
    run w h (evs ++ [e]) = step w h (run w h evs) e := by
  unfold run
  rw [List.foldl_append]
  rfl

theorem wfs_initState : WFS initState := by
  constructor
  · show (List.map IdParticle.pid []).Nodup
    exact List.nodup_nil
  · intro j hj
    exact absurd (show j ∈ List.map IdParticle.pid [] from hj) (by simp)

theorem nodangle_initState : NoDangle initState := by
  intro i hi
  exact absurd hi (by simp [initState])

theorem wfs_foldl (w h : ℚ) (l : List Ev) :
    ∀ s : PState, WFS s → WFS (l.foldl (step w h) s) := by
  induction l with
  | nil => intro s hs; exact hs
  | cons e l ih =>
    intro s hs
    rw [List.foldl_cons]
    exact ih _ (wfs_step w h e s hs)

theorem wfs_run (w h : ℚ) (evs : List Ev) : WFS (run w h evs) :=
  wfs_foldl w h evs initState wfs_initState

theorem inv_foldl (w h : ℚ) (l : List Ev) :
    ∀ s : PState, (∀ e ∈ l, e ≠ Ev.resize) → WFS s ∧ NoDangle s →
      WFS (l.foldl (step w h) s) ∧ NoDangle (l.foldl (step w h) s) := by
  induction l with
  | nil => intro s _ hs; exact hs
  | cons e l ih =>
    intro s hl hs
    rw [List.foldl_cons]
    exact ih _ (fun e2 he2 => hl e2 (List.mem_cons_of_mem e he2))
      (nodangle_step w h e s (hl e (List.mem_cons_self e l)) hs)

theorem inv_run (w h : ℚ) (evs : List Ev) (hres : Ev.resize ∉ evs) :
    WFS (run w h evs) ∧ NoDangle (run w h evs) :=
  inv_foldl w h evs initState
    (fun e he heq => hres (heq ▸ he)) ⟨wfs_initState, nodangle_initState⟩

/-- Claim C7 as stated fails on the code: the resize handler empties the
store without clearing the interactionParticle reference, so after a
pointer move that follows such a resize the store holds zero interaction
particles (not exactly one), and the subsequent pointer-leave leaves the
store size unchanged (it does not decrease by one). -/
theorem claim_C7_counterexample :
    interactionCount (run 800 600 [Ev.move 1 2 rnd0, Ev.resize, Ev.move 3 4 rnd0]) = 0 ∧
      (run 800 600 [Ev.move 1 2 rnd0, Ev.resize, Ev.move 3 4 rnd0,
        Ev.leave]).particles.length =
        (run 800 600 [Ev.move 1 2 rnd0, Ev.resize, Ev.move 3 4 rnd0]).particles.length :=
  ⟨rfl, rfl⟩

/-- Claim C7 amended: at most one interaction particle is live at any
point; after a pointer move in any execution free of resize-clears exactly
one interaction particle is in the store; and a pointer-leave from a state
whose interaction reference points into the store removes exactly that
entry by identity, clears the reference, and shrinks the store by one with
all other entries unchanged.  (After a resize-clear with a live reference,
the reference dangles and subsequent pointer events maintain zero
interaction particles in the store.) -/
theorem claim_C7_amended (w h : ℚ) :
    (∀ evs : List Ev, interactionCount (run w h evs) ≤ 1) ∧
      (∀ (evs : List Ev) (x y : ℚ) (r : Rnd), Ev.resize ∉ evs →
        interactionCount (run w h (evs ++ [Ev.move x y r])) = 1) ∧
      (∀ (s : PState) (i : ℕ), s.interaction = some i → i ∈ ids s →
        ∃ q l1 l2, q.pid = i ∧ s.particles = l1 ++ q :: l2 ∧
          (removeInteractionParticle s).particles = l1 ++ l2 ∧
          (removeInteractionParticle s).interaction = none ∧
          (removeInteractionParticle s).particles.length + 1 = s.particles.length) := by
  refine ⟨?_, ?_, ?_⟩
  · intro evs
    exact interactionCount_le_one _ (wfs_run w h evs)
  · intro evs x y r hres
    rw [run_append]
    exact interactionCount_pointerMove w h x y r _ (inv_run w h evs hres).1
      (inv_run w h evs hres).2
  · intro s i hi hmem
    obtain ⟨ps, oi, n⟩ := s
    have hoi : oi = some i := hi
    subst hoi
    obtain ⟨q, hqmem, hqpid⟩ := List.mem_map.mp hmem
    have hbq : (fun q2 : IdParticle => q2.pid == i) q = true := by
      simp [hqpid]
    obtain ⟨a, l1, l2, hl1, hpa, hsplit, herase⟩ :=
      @List.exists_of_eraseP IdParticle (fun q2 => q2.pid == i) ps q hqmem hbq
    have hA : ps.any (fun q2 => q2.pid == i) = true :=
      List.any_eq_true.mpr ⟨q, hqmem, hbq⟩
    rw [removeInteractionParticle_some, if_pos hA]
    refine ⟨a, l1, l2, by simpa using hpa, hsplit, herase, rfl, ?_⟩
    show (ps.eraseP fun q2 => q2.pid == i).length + 1 = ps.length
    rw [herase, hsplit]
    simp only [List.length_append, List.length_cons]
    omega

/-- Witness for claim C7 amended: the empty history, a single pointer move
from the empty history, and a concrete removal from the one-entry state
sW. -/
theorem claim_C7_witness :
    interactionCount (run 800 600 []) ≤ 1 ∧
      (Ev.resize ∉ ([] : List Ev) ∧
        interactionCount (run 800 600 ([] ++ [Ev.move 5 6 rnd0])) = 1) ∧
      (sW.interaction = some 0 ∧ 0 ∈ ids sW ∧
        ∃ q l1 l2, q.pid = 0 ∧ sW.particles = l1 ++ q :: l2 ∧
          (removeInteractionParticle sW).particles = l1 ++ l2 ∧
          (removeInteractionParticle sW).interaction = none ∧
          (removeInteractionParticle sW).particles.length + 1 = sW.particles.length) := by
  refine ⟨(claim_C7_amended 800 600).1 [],
    ⟨?_, (claim_C7_amended 800 600).2.1 [] 5 6 rnd0 ?_⟩,
    ⟨rfl, ?_, (claim_C7_amended 800 600).2.2 sW 0 rfl ?_⟩⟩
  · simp
  · simp
  · show (0 : ℕ) ∈ [0]
    exact List.mem_singleton.mpr rfl
  · show (0 : ℕ) ∈ [0]
    exact List.mem_singleton.mpr rfl

end NetworkAnimation
